import Mathlib

/-!
Shallow embedding of the hex-a-theremin instrument core
(`src/utils/music.ts`, `src/utils/geometry.ts`, the `HexagonInstrument`
component and the effect-slot logic of the application shell), together
with proofs checking the specification's claims against it.

JavaScript numbers are modelled as real numbers; the JS operations
`Math.floor`, `Math.round`, `Math.trunc` and the `%` remainder are given
explicit counterparts below.
-/

open Real

noncomputable section

/-! ## JavaScript numeric primitives -/

/-- JS `Math.trunc` / the truncation used by the `%` operator: round toward zero. -/
def jsTrunc (x : ℝ) : ℤ := if 0 ≤ x then ⌊x⌋ else ⌈x⌉

/-- JS binary `%` on numbers: `a % b = a - b * trunc (a / b)` (sign of the dividend). -/
def jsFmod (a b : ℝ) : ℝ := a - b * (jsTrunc (a / b) : ℝ)

/-- JS `Math.round`: round half toward positive infinity. -/
def jsRound (x : ℝ) : ℤ := ⌊x + 1 / 2⌋

/-- JS `Math.max(0, Math.min(1, v))`, the clamp used for modulation factors. -/
def clamp01 (v : ℝ) : ℝ := max 0 (min 1 v)

/-! ## `src/utils/music.ts` -/

/-- `ScaleType` from `music.ts`. -/
inductive ScaleType where
  | chromatic | major | minor | pentatonicMajor | pentatonicMinor | blues
deriving DecidableEq, Repr, Fintype

/-- `ChordType` from `music.ts`. -/
inductive ChordType where
  | off | triad | seventh
deriving DecidableEq, Repr

/-- The `intervals` field of the `SCALES` table in `music.ts`. -/
def intervals : ScaleType → List ℤ
  | .chromatic => [0, 1, 2, 3, 4, 5, 6, 7, 8, 9, 10, 11]
  | .major => [0, 2, 4, 5, 7, 9, 11]
  | .minor => [0, 2, 3, 5, 7, 8, 10]
  | .pentatonicMajor => [0, 2, 4, 7, 9]
  | .pentatonicMinor => [0, 3, 5, 7, 10]
  | .blues => [0, 3, 5, 6, 7, 10]

/-- One step of the nearest-interval scan in `getNearestScaleNote`: state is
`(minDiff, nearestInterval)` with `none` standing for the initial `Infinity`. -/
def nearestScanStep (idx : ℤ) (st : Option ℤ × ℤ) (interval : ℤ) : Option ℤ × ℤ :=
  let diff := |idx - interval|
  match st.1 with
  | none => (some diff, interval)
  | some m => if diff < m then (some diff, interval) else st

/-- The `for (const interval of scale.intervals)` loop of `getNearestScaleNote`:
`minDiff` starts at `Infinity`, `nearestInterval` at `0`, and an interval replaces
the current best only when its distance is strictly smaller. -/
def nearestIntervalTo (idx : ℤ) (l : List ℤ) : ℤ :=
  (l.foldl (nearestScanStep idx) (none, 0)).2

/-- The class-index computation of `getNearestScaleNote` in `music.ts`:
`noteIndex = Math.round(s % 12)`,
`normalizedIndex = noteIndex < 0 ? noteIndex + 12 : noteIndex`. -/
def jsClassIndex (s : ℝ) : ℤ :=
  let noteIndex : ℤ := jsRound (jsFmod s 12)
  if noteIndex < 0 then noteIndex + 12 else noteIndex

/-- `getNearestScaleNote(semitonesFromRoot, scaleType)` continued:
`octave = Math.floor(s / 12)`, then the nearest-interval scan on the
normalized rounded class index, returning `octave * 12 + nearestInterval`. -/
def getNearestScaleNote (s : ℝ) (scaleType : ScaleType) : ℤ :=
  let octave : ℤ := ⌊s / 12⌋
  octave * 12 + nearestIntervalTo (jsClassIndex s) (intervals scaleType)

/-- `quantizeFrequency(freq, rootFreq, scaleType)` from `music.ts`: chromatic
passes the frequency through; otherwise the fractional semitone offset
`12 * Math.log2(freq / rootFreq)` is sent to `getNearestScaleNote` and the
result is `rootFreq * Math.pow(2, quantizedSemitones / 12)`. -/
def quantizeFrequency (freq rootFreq : ℝ) (scaleType : ScaleType) : ℝ :=
  if scaleType = .chromatic then freq
  else
    let semitonesEx : ℝ := 12 * Real.logb 2 (freq / rootFreq)
    let quantizedSemitones := getNearestScaleNote semitonesEx scaleType
    rootFreq * (2 : ℝ) ^ ((quantizedSemitones : ℝ) / 12)

/-! Definitions written from the specification's words, for comparison with the
code (claim C4): snap the *fractional* semitone offset to the nearest allowed
interval within the same octave class, ties broken toward the lower interval. -/

/-- Modelled from the spec: the nearest interval of `l` to the fractional class
offset `c`, ties toward the lower interval (the intervals are listed in
ascending order, and a later interval wins only by a strictly smaller distance). -/
def specSnap (l : List ℤ) (c : ℝ) : ℤ :=
  l.foldl (fun (best i : ℤ) => if |c - (i : ℝ)| < |c - (best : ℝ)| then i else best) (l.headD 0)

/-- Modelled from the spec: quantization as the claim states it — the fractional
offset `s = 12·log2(freq/root)` is reduced to its octave class `s - 12·⌊s/12⌋`,
snapped directly to the nearest allowed interval (ties toward the lower one),
and the octave is restored. Chromatic returns the input unchanged. -/
def specQuantize (freq rootFreq : ℝ) (scaleType : ScaleType) : ℝ :=
  if scaleType = .chromatic then freq
  else
    let s : ℝ := 12 * Real.logb 2 (freq / rootFreq)
    let octave : ℤ := ⌊s / 12⌋
    let c : ℝ := s - 12 * octave
    rootFreq * (2 : ℝ) ^ (((12 * octave + specSnap (intervals scaleType) c : ℤ) : ℝ) / 12)

/-- One step of the `intervals.forEach((val, idx) => ...)` scan in
`getChordFrequencies`: state is `(minDiff, intervalIndex)`, initialized to
`(100, -1)`; an entry replaces the best only by a strictly smaller distance. -/
def chordScanStep (normBaseMod : ℤ) (st : ℤ × ℤ) (iv : ℕ × ℤ) : ℤ × ℤ :=
  if |iv.2 - normBaseMod| < st.1 then (|iv.2 - normBaseMod|, (iv.1 : ℤ)) else st

/-- The scale-step index search of `getChordFrequencies`: the index of the
interval nearest to `normBaseMod`, `-1` when the list is empty. -/
def intervalIndexOf (normBaseMod : ℤ) (l : List ℤ) : ℤ :=
  (l.enum.foldl (chordScanStep normBaseMod) (100, -1)).2

/-- `getChordFrequencies(baseFreq, rootFreq, scaleType, chordType)` from
`music.ts`: `'off'` or chromatic return `[baseFreq]`; otherwise the base note is
quantized, its scale-degree index is found, and scale-degree offsets `0, 2, 4`
(triad) or `0, 2, 4, 6` (seventh) are applied, wrapping with `% length` and
shifting the octave by `Math.floor(totalIndex / length)`. -/
def getChordFrequencies (baseFreq rootFreq : ℝ) (scaleType : ScaleType)
    (chordType : ChordType) : List ℝ :=
  if chordType = .off ∨ scaleType = .chromatic then [baseFreq]
  else
    let semitonesFromRoot : ℝ := 12 * Real.logb 2 (baseFreq / rootFreq)
    let quantizedSemitones : ℤ := getNearestScaleNote semitonesFromRoot scaleType
    let ivs := intervals scaleType
    let currentOctave : ℤ := ⌊(quantizedSemitones : ℝ) / 12⌋
    let baseNoteIndex : ℤ := jsRound ((Int.tmod quantizedSemitones 12 : ℤ) : ℝ)
    let normBaseMod : ℤ := Int.tmod (Int.tmod baseNoteIndex 12 + 12) 12
    let intervalIndex : ℤ := intervalIndexOf normBaseMod ivs
    if intervalIndex = -1 then [baseFreq]
    else
      let chordOffsets : List ℤ := if chordType = .triad then [0, 2, 4] else [0, 2, 4, 6]
      chordOffsets.map fun offset =>
        let totalIndex : ℤ := intervalIndex + offset
        let effectiveIntervalIndex : ℤ := Int.tmod totalIndex (ivs.length : ℤ)
        let octaveShift : ℤ := ⌊(totalIndex : ℝ) / (ivs.length : ℝ)⌋
        let scaleInterval : ℤ := ivs.getD effectiveIntervalIndex.toNat 0
        let totalSemitones : ℤ := scaleInterval + (currentOctave + octaveShift) * 12
        rootFreq * (2 : ℝ) ^ ((totalSemitones : ℝ) / 12)

/-! ## `src/utils/geometry.ts` -/

/-- `Point` from `geometry.ts`. -/
structure Point where
  x : ℝ
  y : ℝ
deriving DecidableEq

/-- `SQRT3` from `geometry.ts`. -/
def SQRT3 : ℝ := Real.sqrt 3

/-- `getHexagonVertices(center, radius)`: flat-top hexagon, vertex `i` at angle
`60·i` degrees, i.e. `center + radius·(cos θ, sin θ)` with `θ = (π/180)·60·i`. -/
def getHexagonVertices (center : Point) (radius : ℝ) : List Point :=
  (List.range 6).map fun (i : ℕ) =>
    let angle_rad : ℝ := Real.pi / 180 * (60 * (i : ℝ))
    ⟨center.x + radius * Real.cos angle_rad, center.y + radius * Real.sin angle_rad⟩

/-- `distToSegment(p, v1, v2)` from `geometry.ts`. -/
def distToSegment (p v1 v2 : Point) : ℝ :=
  let A := p.x - v1.x
  let B := p.y - v1.y
  let C := v2.x - v1.x
  let D := v2.y - v1.y
  let dot := A * C + B * D
  let len_sq := C * C + D * D
  let param : ℝ := if len_sq ≠ 0 then dot / len_sq else -1
  let xx := if param < 0 then v1.x else if param > 1 then v2.x else v1.x + param * C
  let yy := if param < 0 then v1.y else if param > 1 then v2.y else v1.y + param * D
  Real.sqrt ((p.x - xx) * (p.x - xx) + (p.y - yy) * (p.y - yy))

/-- `getDistancesToSides(p, vertices)` from `geometry.ts`: the distance from `p`
to each of the six segments `(vertices[i], vertices[(i+1) % 6])`. -/
def getDistancesToSides (p : Point) (vertices : List Point) : List ℝ :=
  (List.range 6).map fun i =>
    distToSegment p (vertices.getD i ⟨0, 0⟩) (vertices.getD ((i + 1) % 6) ⟨0, 0⟩)

/-- One edge test of the ray-casting loop of `isPointInHexagon`: toggle `inside`
when the horizontal ray from `p` crosses the edge `(vi, vj)`. -/
def rayStep (p : Point) (inside : Bool) (vi vj : Point) : Bool :=
  if ((vi.y > p.y) ≠ (vj.y > p.y)) ∧
      (p.x < (vj.x - vi.x) * (p.y - vi.y) / (vj.y - vi.y) + vi.x) then
    !inside
  else inside

/-- `isPointInHexagon(p, vertices)` from `geometry.ts`: ray casting over the
edges `(i, j)` with `j` the previous index, starting from `(0, last)`. -/
def isPointInHexagon (p : Point) (vertices : List Point) : Bool :=
  (List.range vertices.length).foldl
    (fun inside i =>
      rayStep p inside (vertices.getD i ⟨0, 0⟩)
        (vertices.getD ((i + (vertices.length - 1)) % vertices.length) ⟨0, 0⟩))
    false

/-! ## `HexagonInstrument.tsx`: normalized position and the pitch mapping -/

/-- `minX = centerX - radius` in `updateNoteFromPosition`. -/
def minX (cx r : ℝ) : ℝ := cx - r

/-- `maxX = centerX + radius` in `updateNoteFromPosition`. -/
def maxX (cx r : ℝ) : ℝ := cx + r

/-- `minY = centerY - radius * SQRT3 / 2` in `updateNoteFromPosition`. -/
def minY (cy r : ℝ) : ℝ := cy - r * SQRT3 / 2

/-- `maxY = centerY + radius * SQRT3 / 2` in `updateNoteFromPosition`. -/
def maxY (cy r : ℝ) : ℝ := cy + r * SQRT3 / 2

/-- `normX = (x - minX) / (maxX - minX)` in `updateNoteFromPosition`. -/
def normX (cx r x : ℝ) : ℝ := (x - minX cx r) / (maxX cx r - minX cx r)

/-- `normY = 1 - ((y - minY) / (maxY - minY))` in `updateNoteFromPosition`:
`normY = 1` at the top edge of the bounding rectangle, `0` at the bottom edge. -/
def normY (cy r y : ℝ) : ℝ := 1 - (y - minY cy r) / (maxY cy r - minY cy r)

/-- The pitch mapping of `updateNoteFromPosition`, before scale quantization:
`minNote = rootFreq * 2^0`, `maxNote = rootFreq * 2^octaveRange`,
`freq = minNote * (maxNote / minNote)^normY`. -/
def pitchFreq (rootFreq : ℝ) (octaveRange : ℕ) (ny : ℝ) : ℝ :=
  let minNote := rootFreq * (2 : ℝ) ^ (0 : ℝ)
  let maxNote := rootFreq * (2 : ℝ) ^ (octaveRange : ℝ)
  minNote * (maxNote / minNote) ^ ny

/-! ## `HexagonInstrument.tsx`: modulation, commands and pointer handlers -/

/-- A modulation binding record (`volMod`, `toneMod`, entries of
`paramModulations`): which axes / pressure drive the value, with optional
inversion flags. A missing JS entry is the all-`false` record. -/
structure ModBinding where
  x : Bool := false
  y : Bool := false
  xInv : Bool := false
  yInv : Bool := false
  p : Bool := false
deriving DecidableEq

/-- `e.pointerType`: only the value `'pen'` is ever compared against. -/
inductive PType where
  | touch | pen | mouse
deriving DecidableEq

/-- `RegionType` (from `RegionSelector`): the values `'whole'`, `'top'` and
`'bottom'` used by the region gates of `updateNoteFromPosition`. -/
inductive RegionType where
  | whole | top | bottom
deriving DecidableEq

/-- The `factors` list built for a modulation binding in
`updateNoteFromPosition`: clamped (optionally inverted) `normX`, then `normY`,
then raw pressure when the pointer is a pen. -/
def modFactors (m : ModBinding) (nx ny pressure : ℝ) (pt : PType) : List ℝ :=
  (if m.x then [if m.xInv then 1 - clamp01 nx else clamp01 nx] else []) ++
  (if m.y then [if m.yInv then 1 - clamp01 ny else clamp01 ny] else []) ++
  (if m.p && decide (pt = .pen) then [pressure] else [])

/-- `volFactor` / `toneFactor` computation: average of the enabled factors, or
`1.0` when the binding is disabled or no factor applies. -/
def modFactor (m : ModBinding) (nx ny pressure : ℝ) (pt : PType) : ℝ :=
  if m.x || m.y || m.p then
    let fs := modFactors m nx ny pressure pt
    if 0 < fs.length then fs.sum / (fs.length : ℝ) else 1
  else 1

/-- The wet/parameter strength computed inside the effect loop of
`updateNoteFromPosition`: average of the factors, or `0` when no factor applies
(note the different default from `modFactor`). The result is `none` when the
binding has no enabled source, i.e. the loop body is skipped. -/
def fingerParamWrite (m : ModBinding) (nx ny pressure : ℝ) (pt : PType) : Option ℝ :=
  if m.x || m.y || m.p then
    let fs := modFactors m nx ny pressure pt
    some (if 0 < fs.length then fs.sum / (fs.length : ℝ) else 0)
  else none

/-- The mix (wet) write of the note pipeline for slot `i`: the entry
`paramModulations[i:wet]`. -/
def fingerWetWrite (paramMods : ℕ → String → ModBinding) (i : ℕ) (nx ny pressure : ℝ)
    (pt : PType) : Option ℝ :=
  fingerParamWrite (paramMods i "wet") nx ny pressure pt

/-- A row of the `EFFECT_PARAMS` table: key and declared range. -/
structure ParamSpec where
  key : String
  min : ℝ
  max : ℝ

/-- The configuration consumed by `HexagonInstrument` (component props plus the
engine values it reads): geometry, root frequency, octave range, master volume,
modulation bindings, scale/chord/arp configuration, and for each effect slot
whether an effect is present and which parameters its type declares. -/
structure InstrumentConfig where
  cx : ℝ
  cy : ℝ
  radius : ℝ
  rootFreq : ℝ
  octaveRange : ℕ
  masterVolume : ℝ
  toneBase : ℝ
  volMod : ModBinding
  toneMod : ModBinding
  paramMods : ℕ → String → ModBinding
  scaleType : ScaleType
  chordType : ChordType
  scaleRegion : RegionType
  chordRegion : RegionType
  arpRegion : RegionType
  arpEnabled : Bool
  effectPresent : ℕ → Bool
  effectParams : ℕ → List ParamSpec

/-- The calls the component makes into the audio engine (and the
`onModulationUpdate` callback), in emission order. -/
inductive EngineCmd where
  | setTone (v : ℝ)
  | startNote (id : ℕ) (freqs : List ℝ) (vol : ℝ) (useArp : Bool)
  | stopNote (id : ℕ)
  | updateEffectParameter (i : ℕ) (strength : ℝ)
  | setEffectParam (i : ℕ) (key : String) (v : ℝ)
  | modulationUpdate (vol tone : ℝ)

/-- The per-slot effect-modulation loop at the end of `updateNoteFromPosition`:
skip absent effects, emit the wet write when its binding is enabled, then the
per-parameter writes mapped into each parameter's `[min, max]` range. -/
def effectModCmds (cfg : InstrumentConfig) (nx ny pressure : ℝ) (pt : PType) :
    List EngineCmd :=
  (List.range 6).flatMap fun i =>
    if cfg.effectPresent i = false then []
    else
      (match fingerWetWrite cfg.paramMods i nx ny pressure pt with
       | some s => [EngineCmd.updateEffectParameter i s]
       | none => []) ++
      (cfg.effectParams i).flatMap fun p =>
        match fingerParamWrite (cfg.paramMods i p.key) nx ny pressure pt with
        | some s => [EngineCmd.setEffectParam i p.key (p.min + s * (p.max - p.min))]
        | none => []

/-! `updateNoteFromPosition(id, x, y, pressure, tiltX, tiltY, pointerType)`:
normalized position, exponential pitch mapping, region-gated scale
quantization and chord expansion, arp gating, volume/tone modulation, pen
tilt, and the emitted engine calls. Each local of the handler is named. -/

/-- `normX` as computed in `updateNoteFromPosition`. -/
def noteNormX (cfg : InstrumentConfig) (x : ℝ) : ℝ := normX cfg.cx cfg.radius x

/-- `normY` as computed in `updateNoteFromPosition`. -/
def noteNormY (cfg : InstrumentConfig) (y : ℝ) : ℝ := normY cfg.cy cfg.radius y

/-- `isTop = normY > 0.5`. -/
def noteIsTop (cfg : InstrumentConfig) (y : ℝ) : Bool :=
  decide (noteNormY cfg y > 1 / 2)

/-- `effectiveScale`: the scale, gated by `scaleRegion`. -/
def noteEffectiveScale (cfg : InstrumentConfig) (y : ℝ) : ScaleType :=
  if cfg.scaleRegion = .top ∧ noteIsTop cfg y = false then .chromatic
  else if cfg.scaleRegion = .bottom ∧ noteIsTop cfg y = true then .chromatic
  else cfg.scaleType

/-- `freq` after quantization. -/
def noteFreq (cfg : InstrumentConfig) (y : ℝ) : ℝ :=
  quantizeFrequency (pitchFreq cfg.rootFreq cfg.octaveRange (noteNormY cfg y))
    cfg.rootFreq (noteEffectiveScale cfg y)

/-- `effectiveChord`: the chord type, gated by `chordRegion`. -/
def noteEffectiveChord (cfg : InstrumentConfig) (y : ℝ) : ChordType :=
  if cfg.chordRegion = .top ∧ noteIsTop cfg y = false then .off
  else if cfg.chordRegion = .bottom ∧ noteIsTop cfg y = true then .off
  else cfg.chordType

/-- `freqs`: the chord expansion when enabled. -/
def noteFreqs (cfg : InstrumentConfig) (y : ℝ) : List ℝ :=
  if noteEffectiveChord cfg y ≠ .off then
    getChordFrequencies (noteFreq cfg y) cfg.rootFreq (noteEffectiveScale cfg y)
      (noteEffectiveChord cfg y)
  else [noteFreq cfg y]

/-- `useArp`, gated by `arpRegion`. -/
def noteUseArp (cfg : InstrumentConfig) (y : ℝ) : Bool :=
  if cfg.arpRegion = .top ∧ noteIsTop cfg y = false then false
  else if cfg.arpRegion = .bottom ∧ noteIsTop cfg y = true then false
  else cfg.arpEnabled

/-- `volFactor`. -/
def noteVolFactor (cfg : InstrumentConfig) (x y pressure : ℝ) (pt : PType) : ℝ :=
  modFactor cfg.volMod (noteNormX cfg x) (noteNormY cfg y) pressure pt

/-- `vol = masterVolume * volFactor`. -/
def noteVol (cfg : InstrumentConfig) (x y pressure : ℝ) (pt : PType) : ℝ :=
  cfg.masterVolume * noteVolFactor cfg x y pressure pt

/-- `toneFactor`, including the pen-tilt attenuation. -/
def noteToneFactor (cfg : InstrumentConfig) (x y pressure tiltX tiltY : ℝ)
    (pt : PType) : ℝ :=
  let toneFactor0 := modFactor cfg.toneMod (noteNormX cfg x) (noteNormY cfg y) pressure pt
  if pt = .pen then
    let tiltMag := Real.sqrt (tiltX * tiltX + tiltY * tiltY)
    toneFactor0 * (1 - min tiltMag 90 / 180)
  else toneFactor0

/-- The engine calls emitted by one run of `updateNoteFromPosition`. -/
def updateNoteCmds (cfg : InstrumentConfig) (id : ℕ) (x y pressure tiltX tiltY : ℝ)
    (pt : PType) : List EngineCmd :=
  [EngineCmd.modulationUpdate (noteVolFactor cfg x y pressure pt)
      (noteToneFactor cfg x y pressure tiltX tiltY pt),
    EngineCmd.setTone (cfg.toneBase * noteToneFactor cfg x y pressure tiltX tiltY pt),
    EngineCmd.startNote id (noteFreqs cfg y) (noteVol cfg x y pressure pt)
      (noteUseArp cfg y)] ++
    effectModCmds cfg (noteNormX cfg x) (noteNormY cfg y) pressure pt

/-- `updateEffectsFromBadge(pos)`: distance to each side, and a wet write
`max(0, 1 - d / radius)` for exactly the slots whose wet (mix) binding has no
enabled modulation source. -/
def updateEffectsFromBadge (cfg : InstrumentConfig) (vertices : List Point) (pos : Point) :
    List EngineCmd :=
  let dists := getDistancesToSides pos vertices
  let maxDist := cfg.radius
  dists.enum.flatMap fun di =>
    let m := cfg.paramMods di.1 "wet"
    if !m.x && !m.y && !m.p then
      [EngineCmd.updateEffectParameter di.1 (max 0 (1 - di.2 / maxDist))]
    else []

/-- The component state touched by the pointer handlers: the
`activeTouches` map (insertion-ordered association list, as a JS `Map`), the
claimed badge pointer and the badge position. -/
structure HexState where
  activeTouches : List (ℕ × Point)
  badgePointer : Option ℕ
  badgePos : Point

/-- JS `Map.set`: replace in place when the key exists, else append. -/
def mapSet (l : List (ℕ × Point)) (k : ℕ) (v : Point) : List (ℕ × Point) :=
  if l.any (fun kv => kv.1 == k) then l.map fun kv => if kv.1 = k then (k, v) else kv
  else l ++ [(k, v)]

/-- JS `Map.delete`. -/
def mapDelete (l : List (ℕ × Point)) (k : ℕ) : List (ℕ × Point) :=
  l.filter fun kv => kv.1 != k

/-- `handlePointerMove`: the badge driver updates the badge (only when the
point is inside the hexagon) and recomputes the badge-driven wet values; an
active note driver updates its stored position and re-runs the note pipeline;
any other identifier is ignored. -/
def handlePointerMove (cfg : InstrumentConfig) (s : HexState) (id : ℕ)
    (x y pressure tiltX tiltY : ℝ) (pt : PType) : HexState × List EngineCmd :=
  let vertices := getHexagonVertices ⟨cfg.cx, cfg.cy⟩ cfg.radius
  if s.badgePointer = some id then
    if isPointInHexagon ⟨x, y⟩ vertices then
      ({ s with badgePos := ⟨x, y⟩ }, updateEffectsFromBadge cfg vertices ⟨x, y⟩)
    else (s, [])
  else if (List.lookup id s.activeTouches).isSome then
    ({ s with activeTouches := mapSet s.activeTouches id ⟨x, y⟩ },
      updateNoteCmds cfg id x y pressure tiltX tiltY pt)
  else (s, [])

/-- `handlePointerUp` (also bound to pointer-leave): release the badge claim,
or stop the identifier's voice and delete its entry, resetting the modulation
display when no touch remains. -/
def handlePointerUp (s : HexState) (id : ℕ) : HexState × List EngineCmd :=
  if s.badgePointer = some id then ({ s with badgePointer := none }, [])
  else if (List.lookup id s.activeTouches).isSome then
    let next := mapDelete s.activeTouches id
    ({ s with activeTouches := next },
      [EngineCmd.stopNote id] ++ if next.length = 0 then [EngineCmd.modulationUpdate 1 1] else [])
  else (s, [])

/-! ## Ghost-note rendering window (`render`, step 4 of `HexagonInstrument`) -/

/-- A recorded ghost event as the renderer consumes it. -/
structure GhostEvent where
  time : ℝ
  x : ℝ
  y : ℝ

/-- A track as the renderer sees it. -/
structure TrackView where
  isPlaying : Bool
  ghostEvents : List GhostEvent

/-- The per-event window test of the ghost renderer:
`diff = |e.time - transportTime|`, `wrapDiff = |masterLoopDuration - diff|`,
`threshold = 0.15`, drawn when `diff < threshold || wrapDiff < threshold`. -/
def ghostWindowHit (masterLoopDuration transportTime : ℝ) (e : GhostEvent) : Prop :=
  let diff := |e.time - transportTime|
  let wrapDiff := |masterLoopDuration - diff|
  let threshold : ℝ := 0.15
  diff < threshold ∨ wrapDiff < threshold

/-- Emission of a ghost event by the render loop: ghosts enabled, a non-zero
locked loop duration (JS truthiness of `engine.masterLoopDuration`), a playing
track owning the event, and the window test at
`transportTime = Tone.Transport.seconds % masterLoopDuration`. -/
def ghostEmitted (ghostNotesEnabled : Bool) (masterLoopDuration : Option ℝ)
    (seconds : ℝ) (track : TrackView) (e : GhostEvent) : Prop :=
  ghostNotesEnabled = true ∧
  ∃ L, masterLoopDuration = some L ∧ L ≠ 0 ∧
    track.isPlaying = true ∧ e ∈ track.ghostEvents ∧
    ghostWindowHit L (jsFmod seconds L) e

end

/-! ## Effect slots (application shell embedded in `prompt.md`, with the
16-entry `EFFECT_TYPES` enumeration of its `audio/effects` module) -/

/-- The sixteen `EffectType` kinds. -/
inductive EffectType where
  | autoFilter | autoPanner | autoWah | bitCrusher | chebyshev
  | chorus | distortion | feedbackDelay | jcReverb | frequencyShifter
  | phaser | pingPongDelay | stereoWidener | pitchShift | tremolo | vibrato
deriving DecidableEq, Fintype

/-- `EFFECT_TYPES`, in source order. -/
def EFFECT_TYPES : List EffectType :=
  [.autoFilter, .autoPanner, .autoWah, .bitCrusher, .chebyshev,
   .chorus, .distortion, .feedbackDelay, .jcReverb, .frequencyShifter,
   .phaser, .pingPongDelay, .stereoWidener, .pitchShift, .tremolo, .vibrato]

/-- `INITIAL_EFFECTS` from the application shell. -/
def INITIAL_EFFECTS : List EffectType :=
  [.jcReverb, .feedbackDelay, .distortion, .chorus, .autoFilter, .phaser]

/-- The `effects` state after startup: slot `i` holds `INITIAL_EFFECTS[i]`
(the state array has type `(EffectType | null)[]`). -/
def initialEffectsState : Fin 6 → Option EffectType :=
  fun i => some (INITIAL_EFFECTS.getD i .jcReverb)

/-- `handleEffectChange(index, type)`: plain assignment into the slot array. -/
def handleEffectChange (s : Fin 6 → Option EffectType) (i : Fin 6) (t : EffectType) :
    Fin 6 → Option EffectType :=
  Function.update s i (some t)

/-- `availableEffects(currentIndex)`: the effect types offered by slot `i`'s
dropdown — all types not selected at any other slot. -/
def availableEffects (s : Fin 6 → Option EffectType) (i : Fin 6) : List EffectType :=
  EFFECT_TYPES.filter fun e => decide (∀ j : Fin 6, j ≠ i → s j ≠ some e)

/-- An assignment attempt through the per-slot selection mechanism: the
dropdown only fires `handleEffectChange` for an offered type; a type that is
not offered cannot be selected and leaves the state unchanged. -/
def attemptSelect (s : Fin 6 → Option EffectType) (i : Fin 6) (t : EffectType) :
    Fin 6 → Option EffectType :=
  if t ∈ availableEffects s i then handleEffectChange s i t else s

/-- The EffectSlot invariant: six non-null, pairwise distinct assignments. -/
def GoodEffects (s : Fin 6 → Option EffectType) : Prop :=
  (∀ j, (s j).isSome = true) ∧ ∀ j k, j ≠ k → s j ≠ s k

/-- `s2` is the result of swapping the contents of two distinct slots of `s`. -/
def isSwapOf (s s2 : Fin 6 → Option EffectType) : Prop :=
  ∃ a b : Fin 6, a ≠ b ∧ s2 a = s b ∧ s2 b = s a ∧
    ∀ c, c ≠ a → c ≠ b → s2 c = s c

/-- Modelled from the spec: "clamped to the hexagon's bounding square" — the
componentwise clamp of a point to the square `[cx-r, cx+r] × [cy-r, cy+r]`
enclosing the hexagon. -/
noncomputable def specClampSquare (cx cy r : ℝ) (p : Point) : Point :=
  ⟨max (cx - r) (min (cx + r) p.x), max (cy - r) (min (cy + r) p.y)⟩

/-! ## Shared geometry lemmas -/

theorem sqrt3_pos : 0 < SQRT3 := by
  simpa [SQRT3] using Real.sqrt_pos.mpr (by norm_num : (0 : ℝ) < 3)

theorem yRange_pos (cy : ℝ) {r : ℝ} (hr : 0 < r) : minY cy r < maxY cy r := by
  have h3 := sqrt3_pos
  simp only [minY, maxY]
  nlinarith

theorem normY_bottom {cy r : ℝ} (hr : 0 < r) : normY cy r (maxY cy r) = 0 := by
  have h := yRange_pos cy hr
  have hne : maxY cy r - minY cy r ≠ 0 := by linarith
  simp [normY, div_self hne]

theorem normY_top {cy r : ℝ} (hr : 0 < r) : normY cy r (minY cy r) = 1 := by
  have h := yRange_pos cy hr
  simp [normY]

theorem normX_left {cx r : ℝ} : normX cx r (minX cx r) = 0 := by
  simp [normX]

theorem normX_right {cx r : ℝ} (hr : 0 < r) : normX cx r (maxX cx r) = 1 := by
  have hne : maxX cx r - minX cx r ≠ 0 := by simp only [minX, maxX]; linarith
  simp [normX, div_self hne]

theorem pitchFreq_zero {f0 : ℝ} (R : ℕ) : pitchFreq f0 R 0 = f0 := by
  simp [pitchFreq]

theorem pitchFreq_one {f0 : ℝ} (R : ℕ) (hf : 0 < f0) :
    pitchFreq f0 R 1 = f0 * 2 ^ R := by
  have hf' : f0 ≠ 0 := ne_of_gt hf
  simp only [pitchFreq, Real.rpow_zero, Real.rpow_one, mul_one]
  rw [Real.rpow_natCast]
  field_simp

/-! ## Claim C1 -/

/-- C1: for every octave range `R` in 1..5 and root frequency `f0 > 0`, the
pitch mapping of `updateNoteFromPosition` yields exactly `f0` at normalized
pitch coordinate 0 (the bottom edge of the listening area) and exactly
`f0 * 2 ^ R` at normalized pitch coordinate 1 (the top edge), before scale
quantization. -/
theorem C1_pitch_endpoints (f0 : ℝ) (R : ℕ) (cy r : ℝ)
    (hf : 0 < f0) (hR1 : 1 ≤ R) (hR5 : R ≤ 5) (hr : 0 < r) :
    normY cy r (maxY cy r) = 0 ∧ normY cy r (minY cy r) = 1 ∧
    pitchFreq f0 R (normY cy r (maxY cy r)) = f0 ∧
    pitchFreq f0 R (normY cy r (minY cy r)) = f0 * 2 ^ R := by
  refine ⟨normY_bottom hr, normY_top hr, ?_, ?_⟩
  · rw [normY_bottom hr, pitchFreq_zero]
  · rw [normY_top hr, pitchFreq_one R hf]

/-- Witness for C1 at `f0 = 440`, `R = 2`, center `0`, radius `2`. -/
theorem C1_pitch_endpoints_witness :
    normY 0 2 (maxY 0 2) = 0 ∧ normY 0 2 (minY 0 2) = 1 ∧
    pitchFreq 440 2 (normY 0 2 (maxY 0 2)) = 440 ∧
    pitchFreq 440 2 (normY 0 2 (minY 0 2)) = 440 * 2 ^ 2 :=
  C1_pitch_endpoints 440 2 0 2 (by norm_num) (by norm_num) (by norm_num) (by norm_num)

/-! ## Claim C2 -/

theorem jsFmod_of_nonneg_lt {t L : ℝ} (h0 : 0 ≤ t) (h1 : t < L) : jsFmod t L = t := by
  have hL : 0 < L := lt_of_le_of_lt h0 h1
  have h01 : 0 ≤ t / L := div_nonneg h0 hL.le
  have h2 : t / L < 1 := (div_lt_one hL).mpr h1
  have hfl : ⌊t / L⌋ = 0 := Int.floor_eq_zero_iff.mpr ⟨h01, h2⟩
  simp [jsFmod, jsTrunc, if_pos h01, hfl]

/-- C2: during playback of a playing track with ghost rendering enabled and a
locked loop length `L`, a recorded event with offset `o` is rendered at loop
time `t ∈ [0, L)` if and only if `|t - o| < 0.15` or `|L - |t - o|| < 0.15`. -/
theorem C2_ghost_window (L t o : ℝ) (track : TrackView) (e : GhostEvent)
    (ht0 : 0 ≤ t) (htL : t < L)
    (hp : track.isPlaying = true) (he : e ∈ track.ghostEvents) (hte : e.time = o) :
    ghostEmitted true (some L) t track e ↔
      |t - o| < 0.15 ∨ abs (L - |t - o|) < 0.15 := by
  have hL : 0 < L := lt_of_le_of_lt ht0 htL
  simp [ghostEmitted, ghostWindowHit, hp, he, hte]
  rw [jsFmod_of_nonneg_lt ht0 htL, abs_sub_comm o t]
  simp [hL.ne']

/-- Witness for C2: the spec's wrap-around example — `L = 4`, event at
`o = 3.95`, loop time `t = 0.02` — is emitted. -/
theorem C2_ghost_window_witness :
    ghostEmitted true (some 4) 0.02 ⟨true, [⟨3.95, 7, 8⟩]⟩ ⟨3.95, 7, 8⟩ := by
  refine (C2_ghost_window 4 0.02 3.95 ⟨true, [⟨3.95, 7, 8⟩]⟩ ⟨3.95, 7, 8⟩
    (by norm_num) (by norm_num) rfl (by simp) rfl).mpr ?_
  right
  rw [show (0.02 : ℝ) - 3.95 = -3.93 by norm_num, abs_neg,
    abs_of_pos (show (0 : ℝ) < 3.93 by norm_num)]
  rw [show (4 : ℝ) - 3.93 = 0.07 by norm_num, abs_of_pos (show (0 : ℝ) < 0.07 by norm_num)]
  norm_num

/-! ## Claim C3 -/

theorem clamp01_mem (v : ℝ) : 0 ≤ clamp01 v ∧ clamp01 v ≤ 1 :=
  ⟨le_max_left _ _, max_le (by norm_num) (min_le_left _ _)⟩

theorem rpow_two_real : (2 : ℝ) ^ (2 : ℝ) = 4 := by
  rw [show (2 : ℝ) = ((2 : ℕ) : ℝ) from by norm_num, Real.rpow_natCast]
  norm_num

/-- C3 counterexample: at the point `(x, -3·√3)` (outside the bounding
rectangle, radius 2, center 0) the pitch coordinate evaluates to `2`, is used
unclamped by the pitch mapping (yielding frequency `4 = f0·2^(2R)`), exceeding
the claimed clamped range `[f0, f0·2^R] = [1, 2]`; clamping would have given
frequency `2`. So the coordinate used for the pitch mapping is not clamped. -/
theorem C3_counterexample :
    normY 0 2 (-3 * SQRT3) = 2 ∧
    pitchFreq 1 1 (normY 0 2 (-3 * SQRT3)) = 4 ∧
    pitchFreq 1 1 (clamp01 (normY 0 2 (-3 * SQRT3))) = 2 ∧
    ¬ pitchFreq 1 1 (normY 0 2 (-3 * SQRT3)) ≤ 1 * 2 ^ 1 := by
  have h3 := sqrt3_pos
  have hny : normY 0 2 (-3 * SQRT3) = 2 := by
    have hne : (2 : ℝ) * SQRT3 ≠ 0 := by positivity
    field_simp [normY, minY, maxY]
    ring
  have hclamp : clamp01 (2 : ℝ) = 1 := by
    norm_num [clamp01]
  refine ⟨hny, ?_, ?_, ?_⟩
  · rw [hny]
    simp only [pitchFreq, Real.rpow_zero, mul_one, one_mul, Real.rpow_one, div_one]
    rw [show ((1 : ℕ) : ℝ) = (1 : ℝ) from by norm_num, Real.rpow_one, rpow_two_real]
  · rw [hny, hclamp]
    simpa using pitchFreq_one 1 one_pos
  · rw [hny]
    simp only [pitchFreq, Real.rpow_zero, mul_one, one_mul, Real.rpow_one, div_one]
    rw [show ((1 : ℕ) : ℝ) = (1 : ℝ) from by norm_num, Real.rpow_one, rpow_two_real]
    norm_num

/-- C3 amended: on the boundary of the bounding rectangle the normalized
coordinates are exactly 0 or 1 on the corresponding axis, and the clamp
applied to the modulation factors keeps every value in `[0, 1]`; the pitch
mapping itself consumes the unclamped coordinate. -/
theorem C3_amended (cx cy r : ℝ) (hr : 0 < r) :
    normX cx r (minX cx r) = 0 ∧ normX cx r (maxX cx r) = 1 ∧
    normY cy r (maxY cy r) = 0 ∧ normY cy r (minY cy r) = 1 ∧
    ∀ v : ℝ, 0 ≤ clamp01 v ∧ clamp01 v ≤ 1 :=
  ⟨normX_left, normX_right hr, normY_bottom hr, normY_top hr, clamp01_mem⟩

/-- Witness for C3's amended statement at center `0`, radius `2`. -/
theorem C3_amended_witness :
    normX 0 2 (minX 0 2) = 0 ∧ normX 0 2 (maxX 0 2) = 1 ∧
    normY 0 2 (maxY 0 2) = 0 ∧ normY 0 2 (minY 0 2) = 1 ∧
    ∀ v : ℝ, 0 ≤ clamp01 v ∧ clamp01 v ≤ 1 :=
  C3_amended 0 0 2 (by norm_num)

/-! ## Claim C4 -/

theorem jsClassIndex_bounds (s : ℝ) : 0 ≤ jsClassIndex s ∧ jsClassIndex s ≤ 12 := by
  have hlo : (-12 : ℝ) < jsFmod s 12 ∧ jsFmod s 12 < 12 := by
    unfold jsFmod jsTrunc
    by_cases hs : 0 ≤ s / 12
    · rw [if_pos hs]
      have h1 : ((⌊s / 12⌋ : ℝ)) ≤ s / 12 := Int.floor_le (s / 12)
      have h2 : s / 12 < ⌊s / 12⌋ + 1 := Int.lt_floor_add_one (s / 12)
      constructor <;> nlinarith
    · rw [if_neg hs]
      have h1 : s / 12 ≤ (⌈s / 12⌉ : ℝ) := Int.le_ceil (s / 12)
      have h2 : ((⌈s / 12⌉ : ℝ)) < s / 12 + 1 := Int.ceil_lt_add_one (s / 12)
      constructor <;> nlinarith
  have key : -12 ≤ jsRound (jsFmod s 12) ∧ jsRound (jsFmod s 12) ≤ 12 := by
    constructor
    · exact Int.le_floor.mpr (by push_cast; linarith [hlo.1])
    · calc jsRound (jsFmod s 12) ≤ ⌊(12.5 : ℝ)⌋ :=
            Int.floor_le_floor (by linarith [hlo.2])
        _ = 12 := by norm_num
  unfold jsClassIndex
  by_cases hn : jsRound (jsFmod s 12) < 0
  · rw [if_pos hn]; omega
  · rw [if_neg hn]; omega

/-- The integer nearest-interval scan of `getNearestScaleNote` picks a member
of the interval list minimizing the distance to the class index, breaking ties
toward the lower interval (checked for every reachable class index 0..12). -/
theorem nearestIntervalTo_spec : ∀ st : ScaleType, ∀ n ∈ Finset.Icc (0 : ℤ) 12,
    nearestIntervalTo n (intervals st) ∈ intervals st ∧
    ∀ j ∈ intervals st,
      |n - nearestIntervalTo n (intervals st)| < |n - j| ∨
      (|n - nearestIntervalTo n (intervals st)| = |n - j| ∧
        nearestIntervalTo n (intervals st) ≤ j) := by
  decide

theorem semis_ce : 12 * Real.logb 2 ((2 : ℝ) ^ ((17 : ℝ) / 60) / 1) = 17 / 5 := by
  rw [div_one, Real.logb_rpow (by norm_num) (by norm_num)]
  norm_num

theorem floor_ce : ⌊(17 / 5 : ℝ) / 12⌋ = 0 := by
  rw [Int.floor_eq_zero_iff]
  constructor <;> norm_num

theorem jsClassIndex_ce : jsClassIndex (17 / 5 : ℝ) = 3 := by
  unfold jsClassIndex
  have hm : jsFmod (17 / 5 : ℝ) 12 = 17 / 5 :=
    jsFmod_of_nonneg_lt (by norm_num) (by norm_num)
  have hr : jsRound (17 / 5 : ℝ) = 3 := by
    unfold jsRound
    rw [show (17 / 5 : ℝ) + 1 / 2 = 39 / 10 by norm_num]
    rw [Int.floor_eq_iff] <;> norm_num
  rw [hm, hr]
  decide

theorem getNearestScaleNote_ce : getNearestScaleNote (17 / 5) .major = 2 := by
  unfold getNearestScaleNote
  rw [floor_ce, jsClassIndex_ce]
  decide

theorem quantizeFrequency_ce :
    quantizeFrequency ((2 : ℝ) ^ ((17 : ℝ) / 60)) 1 .major = (2 : ℝ) ^ ((1 : ℝ) / 6) := by
  show (1 : ℝ) * (2 : ℝ) ^
      (((getNearestScaleNote (12 * Real.logb 2 ((2 : ℝ) ^ ((17 : ℝ) / 60) / 1))
        ScaleType.major : ℤ) : ℝ) / 12) = (2 : ℝ) ^ ((1 : ℝ) / 6)
  rw [semis_ce, getNearestScaleNote_ce]
  norm_num

theorem specSnap_ce : specSnap (intervals .major) (17 / 5) = 4 := by
  have a0 : |(17 : ℝ) / 5| = 17 / 5 := by
    rw [abs_of_nonneg]; norm_num
  have a1 : |(7 : ℝ) / 5| = 7 / 5 := by
    rw [abs_of_nonneg]; norm_num
  have a2 : |(3 : ℝ) / 5| = 3 / 5 := by
    rw [abs_of_nonneg]; norm_num
  have a3 : |(8 : ℝ) / 5| = 8 / 5 := by
    rw [abs_of_nonneg]; norm_num
  have a4 : |(18 : ℝ) / 5| = 18 / 5 := by
    rw [abs_of_nonneg]; norm_num
  have a5 : |(28 : ℝ) / 5| = 28 / 5 := by
    rw [abs_of_nonneg]; norm_num
  have a6 : |(38 : ℝ) / 5| = 38 / 5 := by
    rw [abs_of_nonneg]; norm_num
  show specSnap [0, 2, 4, 5, 7, 9, 11] (17 / 5) = 4
  simp only [specSnap, List.foldl, List.headD]
  push_cast
  norm_num [abs_neg, a0, a1, a2, a3, a4, a5, a6]

theorem specQuantize_ce :
    specQuantize ((2 : ℝ) ^ ((17 : ℝ) / 60)) 1 .major = (2 : ℝ) ^ ((1 : ℝ) / 3) := by
  unfold specQuantize
  rw [if_neg (by decide)]
  simp only [semis_ce, floor_ce]
  rw [show (17 / 5 : ℝ) - 12 * ((0 : ℤ) : ℝ) = 17 / 5 by norm_num, specSnap_ce]
  norm_num

/-- C4 counterexample: at `f = r·2^(3.4/12)` (fractional semitone offset 3.4,
major scale) the code first rounds 3.4 to the integer semitone 3 and then snaps
`3` to the interval `2` (the tie `|3-2| = |3-4|` broken low), returning
`r·2^(2/12)`; snapping the fractional offset 3.4 directly, as the claim states,
gives the interval `4` and `r·2^(4/12)`. The two disagree. -/
theorem C4_counterexample :
    quantizeFrequency ((2 : ℝ) ^ ((17 : ℝ) / 60)) 1 .major = (2 : ℝ) ^ ((1 : ℝ) / 6) ∧
    specQuantize ((2 : ℝ) ^ ((17 : ℝ) / 60)) 1 .major = (2 : ℝ) ^ ((1 : ℝ) / 3) ∧
    quantizeFrequency ((2 : ℝ) ^ ((17 : ℝ) / 60)) 1 .major ≠
      specQuantize ((2 : ℝ) ^ ((17 : ℝ) / 60)) 1 .major := by
  refine ⟨quantizeFrequency_ce, specQuantize_ce, ?_⟩
  rw [quantizeFrequency_ce, specQuantize_ce]
  have hlt : (2 : ℝ) ^ ((1 : ℝ) / 6) < (2 : ℝ) ^ ((1 : ℝ) / 3) :=
    (Real.rpow_lt_rpow_left_iff (by norm_num : (1 : ℝ) < 2)).mpr (by norm_num)
  exact ne_of_lt hlt

/-- C4 amended: for a non-chromatic scale, `quantizeFrequency` returns
`r·2^(q/12)` where `q` is obtained by *first rounding* the fractional semitone
offset `12·log2(f/r)` within its octave class to the nearest integer semitone
(JS `Math.round`), then snapping that integer to the nearest interval of the
scale's interval set, the lower interval chosen when equidistant; for the
chromatic scale the input frequency is returned unchanged. -/
theorem C4_amended (f r : ℝ) (st : ScaleType)
    (hf : 0 < f) (hr : 0 < r) (hst : st ≠ .chromatic) :
    quantizeFrequency f r st =
      r * (2 : ℝ) ^ (((⌊12 * Real.logb 2 (f / r) / 12⌋ * 12 +
        nearestIntervalTo (jsClassIndex (12 * Real.logb 2 (f / r))) (intervals st) : ℤ) : ℝ)
          / 12) ∧
    nearestIntervalTo (jsClassIndex (12 * Real.logb 2 (f / r))) (intervals st) ∈
      intervals st ∧
    (∀ j ∈ intervals st,
      |jsClassIndex (12 * Real.logb 2 (f / r)) -
          nearestIntervalTo (jsClassIndex (12 * Real.logb 2 (f / r))) (intervals st)| <
        |jsClassIndex (12 * Real.logb 2 (f / r)) - j| ∨
      (|jsClassIndex (12 * Real.logb 2 (f / r)) -
          nearestIntervalTo (jsClassIndex (12 * Real.logb 2 (f / r))) (intervals st)| =
        |jsClassIndex (12 * Real.logb 2 (f / r)) - j| ∧
        nearestIntervalTo (jsClassIndex (12 * Real.logb 2 (f / r))) (intervals st) ≤ j)) ∧
    quantizeFrequency f r .chromatic = f := by
  have hb := jsClassIndex_bounds (12 * Real.logb 2 (f / r))
  have hspec := nearestIntervalTo_spec st (jsClassIndex (12 * Real.logb 2 (f / r)))
    (Finset.mem_Icc.mpr hb)
  refine ⟨?_, hspec.1, hspec.2, by simp [quantizeFrequency]⟩
  simp [quantizeFrequency, getNearestScaleNote, if_neg hst]

/-- Witness for C4's amended statement at `f = 2`, `r = 1`, major scale. -/
theorem C4_amended_witness :
    quantizeFrequency 2 1 .major =
      1 * (2 : ℝ) ^ (((⌊12 * Real.logb 2 (2 / 1) / 12⌋ * 12 +
        nearestIntervalTo (jsClassIndex (12 * Real.logb 2 (2 / 1))) (intervals .major) : ℤ) : ℝ)
          / 12) ∧
    nearestIntervalTo (jsClassIndex (12 * Real.logb 2 (2 / 1))) (intervals .major) ∈
      intervals .major ∧
    (∀ j ∈ intervals ScaleType.major,
      |jsClassIndex (12 * Real.logb 2 (2 / 1)) -
          nearestIntervalTo (jsClassIndex (12 * Real.logb 2 (2 / 1))) (intervals .major)| <
        |jsClassIndex (12 * Real.logb 2 (2 / 1)) - j| ∨
      (|jsClassIndex (12 * Real.logb 2 (2 / 1)) -
          nearestIntervalTo (jsClassIndex (12 * Real.logb 2 (2 / 1))) (intervals .major)| =
        |jsClassIndex (12 * Real.logb 2 (2 / 1)) - j| ∧
        nearestIntervalTo (jsClassIndex (12 * Real.logb 2 (2 / 1))) (intervals .major) ≤ j)) ∧
    quantizeFrequency 2 1 .chromatic = 2 :=
  C4_amended 2 1 .major (by norm_num) (by norm_num) (by decide)

/-! ## Claim C5 -/

theorem jsRound_intCast (n : ℤ) : jsRound ((n : ℤ) : ℝ) = n := by
  unfold jsRound
  rw [Int.floor_int_add]
  norm_num

theorem neg_tmod_eq (a b : ℤ) : Int.tmod (-a) b = -Int.tmod a b := by
  simp only [Int.tmod_def, Int.neg_tdiv]
  ring

theorem tmod_bounds12 (q : ℤ) : -12 < Int.tmod q 12 ∧ Int.tmod q 12 < 12 := by
  have h2 := Int.tmod_lt_of_pos q (show (0 : ℤ) < 12 by norm_num)
  have h1 := Int.tmod_lt_of_pos (-q) (show (0 : ℤ) < 12 by norm_num)
  rw [neg_tmod_eq] at h1
  exact ⟨by omega, h2⟩

theorem tmod_small12 {t : ℤ} (h1 : -12 < t) (h2 : t < 12) : Int.tmod t 12 = t := by
  rcases le_or_lt 0 t with h | h
  · exact Int.tmod_eq_of_lt h h2
  · have hx : Int.tmod (-t) 12 = -t := Int.tmod_eq_of_lt (by omega) (by omega)
    have := neg_tmod_eq t 12
    omega

theorem normBaseMod_eq (q : ℤ) :
    Int.tmod (Int.tmod (Int.tmod q 12) 12 + 12) 12 = q % 12 := by
  obtain ⟨h1, h2⟩ := tmod_bounds12 q
  rw [tmod_small12 h1 h2, Int.tmod_eq_emod (by omega) (by norm_num)]
  have hc : Int.tmod q 12 % 12 = q % 12 := by
    calc Int.tmod q 12 % 12
        = (Int.tmod q 12 + 12 * Int.tdiv q 12) % 12 :=
          (Int.add_mul_emod_self_left _ _ _).symm
      _ = q % 12 := by rw [Int.tmod_add_tdiv]
  omega

theorem floor_intCast_div_real (a : ℤ) (n : ℕ) : ⌊(a : ℝ) / (n : ℝ)⌋ = a / (n : ℤ) := by
  rw [show (a : ℝ) / (n : ℝ) = (((a : ℚ) / (n : ℚ) : ℚ) : ℝ) by push_cast; ring]
  rw [Rat.floor_cast, Rat.floor_intCast_div_natCast]

theorem floor_intCast_div12 (a : ℤ) : ⌊(a : ℝ) / 12⌋ = a / 12 := by
  rw [show (12 : ℝ) = ((12 : ℕ) : ℝ) by norm_num, floor_intCast_div_real]
  norm_num

theorem intervalBounds : ∀ st : ScaleType, ∀ m ∈ intervals st, 0 ≤ m ∧ m ≤ 11 := by
  decide

/-- The `forEach` scan of `getChordFrequencies` finds the exact index of a
class value that belongs to the interval list (checked for all class values
0..11 of every scale). -/
theorem intervalIndexOf_spec : ∀ st : ScaleType, ∀ m ∈ Finset.Icc (0 : ℤ) 11,
    m ∈ intervals st →
    0 ≤ intervalIndexOf m (intervals st) ∧
    intervalIndexOf m (intervals st) < ((intervals st).length : ℤ) ∧
    (intervals st).getD (intervalIndexOf m (intervals st)).toNat 0 = m := by
  decide

/-- C5: for every base frequency, root frequency, non-chromatic scale and chord
type `'triad'` (resp. `'seventh'`), `getChordFrequencies` returns exactly 3
(resp. 4) frequencies, built from scale-degree offsets `0, +2, +4` (and `+6`)
from the base note's scale degree `i0` in the interval list: a degree index
wraps modulo the list length and shifts the result up by 12 semitones per
completed wrap. -/
theorem C5_chord_structure (f r : ℝ) (st : ScaleType) (ct : ChordType)
    (hf : 0 < f) (hr : 0 < r) (hst : st ≠ .chromatic)
    (hct : ct = .triad ∨ ct = .seventh) :
    (getChordFrequencies f r st ct).length = (if ct = .triad then 3 else 4) ∧
    ∃ i0 : ℤ, 0 ≤ i0 ∧ i0 < ((intervals st).length : ℤ) ∧
      (intervals st).getD i0.toNat 0 =
        getNearestScaleNote (12 * Real.logb 2 (f / r)) st % 12 ∧
      getChordFrequencies f r st ct =
        (if ct = .triad then ([0, 2, 4] : List ℤ) else [0, 2, 4, 6]).map (fun o =>
          r * (2 : ℝ) ^
            ((((intervals st).getD ((i0 + o) % ((intervals st).length : ℤ)).toNat 0 +
              (getNearestScaleNote (12 * Real.logb 2 (f / r)) st / 12 +
                (i0 + o) / ((intervals st).length : ℤ)) * 12 : ℤ) : ℝ) / 12)) := by
  have hoff : ¬(ct = .off ∨ st = .chromatic) := by
    rcases hct with h | h <;> simp [h, hst]
  have hivmem := (nearestIntervalTo_spec st (jsClassIndex (12 * Real.logb 2 (f / r)))
      (Finset.mem_Icc.mpr (jsClassIndex_bounds _))).1
  have hivb := intervalBounds st _ hivmem
  obtain ⟨hi0a, hi0b, hi0c⟩ := intervalIndexOf_spec st _
      (Finset.mem_Icc.mpr hivb) hivmem
  have hq : getNearestScaleNote (12 * Real.logb 2 (f / r)) st =
      ⌊12 * Real.logb 2 (f / r) / 12⌋ * 12 +
        nearestIntervalTo (jsClassIndex (12 * Real.logb 2 (f / r))) (intervals st) := rfl
  have hqmod : getNearestScaleNote (12 * Real.logb 2 (f / r)) st % 12 =
      nearestIntervalTo (jsClassIndex (12 * Real.logb 2 (f / r))) (intervals st) := by
    rw [hq]; omega
  have hnbm : Int.tmod (Int.tmod (jsRound
        ((Int.tmod (getNearestScaleNote (12 * Real.logb 2 (f / r)) st) 12 : ℤ) : ℝ)) 12
          + 12) 12 =
      getNearestScaleNote (12 * Real.logb 2 (f / r)) st % 12 := by
    rw [jsRound_intCast]
    exact normBaseMod_eq _
  have helem : ∀ a j o : ℤ, 0 ≤ j + o →
      r * (2 : ℝ) ^ ((((intervals st).getD
          (Int.tmod (j + o) ((intervals st).length : ℤ)).toNat 0 +
        (⌊(a : ℝ) / 12⌋ + ⌊((j + o : ℤ) : ℝ) / ((intervals st).length : ℝ)⌋) * 12
          : ℤ) : ℝ) / 12) =
      r * (2 : ℝ) ^ ((((intervals st).getD
          ((j + o) % ((intervals st).length : ℤ)).toNat 0 +
        (a / 12 + (j + o) / ((intervals st).length : ℤ)) * 12 : ℤ) : ℝ) / 12) := by
    intro a j o h
    rw [Int.tmod_eq_emod h (Int.natCast_nonneg _), floor_intCast_div12,
      floor_intCast_div_real]
  have key : getChordFrequencies f r st ct =
      (if ct = .triad then ([0, 2, 4] : List ℤ) else [0, 2, 4, 6]).map (fun o =>
        r * (2 : ℝ) ^
          ((((intervals st).getD
              ((intervalIndexOf
                  (nearestIntervalTo (jsClassIndex (12 * Real.logb 2 (f / r)))
                    (intervals st)) (intervals st) + o) %
                ((intervals st).length : ℤ)).toNat 0 +
            (getNearestScaleNote (12 * Real.logb 2 (f / r)) st / 12 +
              (intervalIndexOf
                  (nearestIntervalTo (jsClassIndex (12 * Real.logb 2 (f / r)))
                    (intervals st)) (intervals st) + o) /
                ((intervals st).length : ℤ)) * 12 : ℤ) : ℝ) / 12)) := by
    simp only [getChordFrequencies]
    rw [if_neg hoff, hnbm, hqmod, if_neg (by omega : ¬(intervalIndexOf
        (nearestIntervalTo (jsClassIndex (12 * Real.logb 2 (f / r))) (intervals st))
        (intervals st) = -1))]
    rcases hct with rfl | rfl
    · simp only [reduceCtorEq, if_pos rfl, List.map_cons, List.map_nil, if_true]
      rw [helem _ _ 0 (by omega), helem _ _ 2 (by omega), helem _ _ 4 (by omega)]
    · simp only [reduceCtorEq, reduceIte, List.map_cons, List.map_nil]
      rw [helem _ _ 0 (by omega), helem _ _ 2 (by omega), helem _ _ 4 (by omega),
        helem _ _ 6 (by omega)]
  refine ⟨?_, intervalIndexOf
      (nearestIntervalTo (jsClassIndex (12 * Real.logb 2 (f / r))) (intervals st))
      (intervals st), hi0a, hi0b, by rw [hqmod]; exact hi0c, key⟩
  rw [key]
  rcases hct with rfl | rfl <;> simp

/-- Witness for C5 at `f = 2`, `r = 1`, major scale, triad. -/
theorem C5_chord_structure_witness :
    (getChordFrequencies 2 1 .major .triad).length =
      (if ChordType.triad = .triad then 3 else 4) ∧
    ∃ i0 : ℤ, 0 ≤ i0 ∧ i0 < ((intervals .major).length : ℤ) ∧
      (intervals .major).getD i0.toNat 0 =
        getNearestScaleNote (12 * Real.logb 2 (2 / 1)) .major % 12 ∧
      getChordFrequencies 2 1 .major .triad =
        (if ChordType.triad = .triad then ([0, 2, 4] : List ℤ) else [0, 2, 4, 6]).map
          (fun o =>
            1 * (2 : ℝ) ^
              ((((intervals .major).getD
                  ((i0 + o) % ((intervals .major).length : ℤ)).toNat 0 +
                (getNearestScaleNote (12 * Real.logb 2 (2 / 1)) .major / 12 +
                  (i0 + o) / ((intervals .major).length : ℤ)) * 12 : ℤ) : ℝ) / 12)) :=
  C5_chord_structure 2 1 .major .triad (by norm_num) (by norm_num) (by decide)
    (Or.inl rfl)

/-! ## Claim C6 -/

/-- C6 counterexample: from the initial state, selecting `AutoWah` (held by no
slot) at slot 0 goes through the dropdown (it is offered, hence not rejected)
and completes as a plain assignment, not as a swap of two slots: the claim's
"rejected or completes a swap" disjunction is false for this attempt. -/
theorem C6_counterexample :
    (EffectType.autoWah ∈ availableEffects initialEffectsState 0) ∧
    attemptSelect initialEffectsState 0 .autoWah ≠ initialEffectsState ∧
    ¬ isSwapOf initialEffectsState (attemptSelect initialEffectsState 0 .autoWah) := by
  refine ⟨by decide, by decide, ?_⟩
  intro ⟨a, b, hab, ha, hb, hc⟩
  revert hab ha hb hc
  revert a b
  decide

/-- C6 amended: the initial assignment holds six pairwise-distinct, non-null
types, and an assignment attempt through the per-slot dropdown is either
rejected (the type is not offered exactly when another slot holds it) or
completes as a plain assignment of a type no other slot holds; in either case
the slots stay pairwise distinct and non-null. -/
theorem C6_effect_slots (s : Fin 6 → Option EffectType) (i : Fin 6) (t : EffectType)
    (hs : GoodEffects s) :
    GoodEffects initialEffectsState ∧
    (t ∉ availableEffects s i ↔ ∃ j, j ≠ i ∧ s j = some t) ∧
    (t ∉ availableEffects s i → attemptSelect s i t = s) ∧
    (t ∈ availableEffects s i →
      attemptSelect s i t = Function.update s i (some t) ∧
      ∀ j, j ≠ i → attemptSelect s i t j ≠ some t) ∧
    GoodEffects (attemptSelect s i t) := by
  have hall : ∀ e : EffectType, e ∈ EFFECT_TYPES := by decide
  have hmem : t ∈ availableEffects s i ↔ ∀ j, j ≠ i → s j ≠ some t := by
    constructor
    · intro h
      have := List.of_mem_filter h
      simpa using of_decide_eq_true this
    · intro h
      exact List.mem_filter.mpr ⟨hall t, decide_eq_true h⟩
  have hinit : GoodEffects initialEffectsState := by
    constructor
    · decide
    · decide
  refine ⟨hinit, ?_, ?_, ?_, ?_⟩
  · constructor
    · intro hx
      have hx2 := (not_congr hmem).mp hx
      push_neg at hx2
      exact hx2
    · rintro ⟨j, hj, hsj⟩ hx
      exact (hmem.mp hx) j hj hsj
  · intro h
    simp [attemptSelect, if_neg h]
  · intro h
    refine ⟨by simp [attemptSelect, handleEffectChange, if_pos h], ?_⟩
    intro j hj
    simp only [attemptSelect, if_pos h, handleEffectChange]
    rw [Function.update_noteq hj]
    exact (hmem.mp h) j hj
  · by_cases h : t ∈ availableEffects s i
    · have hother := hmem.mp h
      simp only [attemptSelect, if_pos h, handleEffectChange]
      constructor
      · intro j
        by_cases hji : j = i
        · subst hji; simp
        · rw [Function.update_noteq hji]
          exact hs.1 j
      · intro j k hjk
        by_cases hji : j = i <;> by_cases hki : k = i
        · exact absurd (hji.trans hki.symm) hjk
        · subst hji
          rw [Function.update_same, Function.update_noteq hki]
          exact fun hc => (hother k hki) hc.symm
        · subst hki
          rw [Function.update_same, Function.update_noteq hji]
          exact hother j hji
        · rw [Function.update_noteq hji, Function.update_noteq hki]
          exact hs.2 j k hjk
    · simp only [attemptSelect, if_neg h]
      exact hs

/-- Witness for C6's amended statement: the `AutoWah` attempt at slot 0 from
the initial state. -/
theorem C6_effect_slots_witness :
    GoodEffects initialEffectsState ∧
    (EffectType.autoWah ∉ availableEffects initialEffectsState 0 ↔
      ∃ j, j ≠ 0 ∧ initialEffectsState j = some .autoWah) ∧
    (EffectType.autoWah ∉ availableEffects initialEffectsState 0 →
      attemptSelect initialEffectsState 0 .autoWah = initialEffectsState) ∧
    (EffectType.autoWah ∈ availableEffects initialEffectsState 0 →
      attemptSelect initialEffectsState 0 .autoWah =
        Function.update initialEffectsState 0 (some .autoWah) ∧
      ∀ j, j ≠ 0 → attemptSelect initialEffectsState 0 .autoWah j ≠ some .autoWah) ∧
    GoodEffects (attemptSelect initialEffectsState 0 .autoWah) :=
  C6_effect_slots initialEffectsState 0 .autoWah ⟨by decide, by decide⟩

/-! ## Claim C7 -/

theorem sqrt3_lt_two : SQRT3 < 2 := by
  rw [SQRT3]
  rw [show (2 : ℝ) = Real.sqrt 4 by
    rw [show (4 : ℝ) = 2 ^ 2 by norm_num, Real.sqrt_sq (by norm_num : (0:ℝ) ≤ 2)]]
  exact Real.sqrt_lt_sqrt (by norm_num) (by norm_num)

/-- The hexagon vertices at center `(0,0)`, radius 2, evaluated. -/
theorem verts_eval : getHexagonVertices ⟨0, 0⟩ 2 =
    [⟨2, 0⟩, ⟨1, SQRT3⟩, ⟨-1, SQRT3⟩, ⟨-2, 0⟩, ⟨-1, -SQRT3⟩, ⟨1, -SQRT3⟩] := by
  have e0 : Real.pi / 180 * (60 * ((0 : ℕ) : ℝ)) = 0 := by push_cast; ring
  have e1 : Real.pi / 180 * (60 * ((1 : ℕ) : ℝ)) = Real.pi / 3 := by push_cast; ring
  have e2 : Real.pi / 180 * (60 * ((2 : ℕ) : ℝ)) = Real.pi - Real.pi / 3 := by
    push_cast; ring
  have e3 : Real.pi / 180 * (60 * ((3 : ℕ) : ℝ)) = Real.pi := by push_cast; ring
  have e4 : Real.pi / 180 * (60 * ((4 : ℕ) : ℝ)) = Real.pi / 3 + Real.pi := by
    push_cast; ring
  have e5 : Real.pi / 180 * (60 * ((5 : ℕ) : ℝ)) = 2 * Real.pi - Real.pi / 3 := by
    push_cast; ring
  unfold getHexagonVertices
  rw [show List.range 6 = [0, 1, 2, 3, 4, 5] from rfl]
  simp only [List.map_cons, List.map_nil]
  rw [e0, e1, e2, e3, e4, e5]
  simp only [Real.cos_zero, Real.sin_zero, Real.cos_pi_div_three, Real.sin_pi_div_three,
    Real.cos_pi_sub, Real.sin_pi_sub, Real.cos_pi, Real.sin_pi, Real.cos_add_pi,
    Real.sin_add_pi, Real.cos_two_pi_sub, Real.sin_two_pi_sub, SQRT3]
  norm_num
  ring

/-- The point `(0, 10)` fails the ray-casting test against the radius-2
hexagon: the ray at height 10 crosses no edge. -/
theorem hex_out_eval :
    isPointInHexagon ⟨0, 10⟩
      [⟨2, 0⟩, ⟨1, SQRT3⟩, ⟨-1, SQRT3⟩, ⟨-2, 0⟩, ⟨-1, -SQRT3⟩, ⟨1, -SQRT3⟩] = false := by
  have h1 : ¬((0 : ℝ) > 10) := by norm_num
  have h2 : ¬(SQRT3 > 10) := by
    have := sqrt3_lt_two
    norm_num
    linarith
  have h3 : ¬(-SQRT3 > 10) := by
    have := sqrt3_pos
    norm_num
    linarith
  simp only [isPointInHexagon, List.length_cons, List.length_nil]
  rw [show List.range 6 = [0, 1, 2, 3, 4, 5] from rfl]
  simp only [List.foldl_cons, List.foldl_nil]
  norm_num [rayStep, List.getD, h1, h2, h3]

/-- A concrete configuration used for closed-instance checks: center `(0,0)`,
radius 2, all modulation bindings disabled. -/
def sampleConfig : InstrumentConfig where
  cx := 0
  cy := 0
  radius := 2
  rootFreq := 440
  octaveRange := 2
  masterVolume := 1
  toneBase := 1
  volMod := {}
  toneMod := {}
  paramMods := fun _ _ => {}
  scaleType := .chromatic
  chordType := .off
  scaleRegion := .whole
  chordRegion := .whole
  arpRegion := .whole
  arpEnabled := false
  effectPresent := fun _ => true
  effectParams := fun _ => []

/-- C7 counterexample: the badge driver moves to `(0, 10)` (outside the
hexagon). The claim says the badge is updated to the position clamped to the
bounding square — `(0, 2)` — but the handler ignores the move and the badge
stays at the center `(0, 0)`. -/
theorem C7_counterexample :
    (handlePointerMove sampleConfig ⟨[], some 7, ⟨0, 0⟩⟩ 7 0 10 (1 / 2) 0 0 .touch).1.badgePos
      = ⟨0, 0⟩ ∧
    specClampSquare 0 0 2 ⟨0, 10⟩ ≠ (⟨0, 0⟩ : Point) := by
  constructor
  · have hv : getHexagonVertices ⟨sampleConfig.cx, sampleConfig.cy⟩ sampleConfig.radius =
        [⟨2, 0⟩, ⟨1, SQRT3⟩, ⟨-1, SQRT3⟩, ⟨-2, 0⟩, ⟨-1, -SQRT3⟩, ⟨1, -SQRT3⟩] := by
      rw [show (⟨sampleConfig.cx, sampleConfig.cy⟩ : Point) = (⟨0, 0⟩ : Point) from rfl,
        show sampleConfig.radius = 2 from rfl, verts_eval]
    simp only [handlePointerMove, hv, hex_out_eval]
    simp
  · intro h
    rw [specClampSquare, Point.mk.injEq] at h
    have h2 := h.2
    rw [min_eq_left (by norm_num : (0:ℝ) + 2 ≤ 10),
      max_eq_right (by norm_num : (0:ℝ) - 2 ≤ 0 + 2)] at h2
    norm_num at h2

/-- C7 amended: a badge-driver move to `p` updates the badge position to `p`
exactly when `p` lies inside the hexagon outline; otherwise the move leaves
the state unchanged. Consequently, after every badge-driver move the badge
position is either its previous value or a point inside the hexagon. -/
theorem C7_amended (cfg : InstrumentConfig) (s : HexState) (id : ℕ)
    (x y pressure tiltX tiltY : ℝ) (pt : PType)
    (hb : s.badgePointer = some id) :
    (isPointInHexagon ⟨x, y⟩ (getHexagonVertices ⟨cfg.cx, cfg.cy⟩ cfg.radius) = true →
      (handlePointerMove cfg s id x y pressure tiltX tiltY pt).1.badgePos = ⟨x, y⟩) ∧
    (isPointInHexagon ⟨x, y⟩ (getHexagonVertices ⟨cfg.cx, cfg.cy⟩ cfg.radius) = false →
      (handlePointerMove cfg s id x y pressure tiltX tiltY pt).1 = s) ∧
    ((handlePointerMove cfg s id x y pressure tiltX tiltY pt).1.badgePos = s.badgePos ∨
      isPointInHexagon ((handlePointerMove cfg s id x y pressure tiltX tiltY pt).1.badgePos)
        (getHexagonVertices ⟨cfg.cx, cfg.cy⟩ cfg.radius) = true) := by
  refine ⟨?_, ?_, ?_⟩
  · intro h
    simp [handlePointerMove, hb, h]
  · intro h
    simp [handlePointerMove, hb, h]
  · by_cases h : isPointInHexagon ⟨x, y⟩
        (getHexagonVertices ⟨cfg.cx, cfg.cy⟩ cfg.radius) = true
    · right
      simp [handlePointerMove, hb, h]
    · left
      simp only [Bool.not_eq_true] at h
      simp [handlePointerMove, hb, h]

/-- Witness for C7's amended statement: the badge driver at the center, moving
to `(0, 10)`. -/
theorem C7_amended_witness :
    (isPointInHexagon ⟨0, 10⟩
        (getHexagonVertices ⟨sampleConfig.cx, sampleConfig.cy⟩ sampleConfig.radius) = true →
      (handlePointerMove sampleConfig ⟨[], some 7, ⟨0, 0⟩⟩ 7 0 10 (1 / 2) 0 0
        .touch).1.badgePos = ⟨0, 10⟩) ∧
    (isPointInHexagon ⟨0, 10⟩
        (getHexagonVertices ⟨sampleConfig.cx, sampleConfig.cy⟩ sampleConfig.radius) = false →
      (handlePointerMove sampleConfig ⟨[], some 7, ⟨0, 0⟩⟩ 7 0 10 (1 / 2) 0 0
        .touch).1 = ⟨[], some 7, ⟨0, 0⟩⟩) ∧
    ((handlePointerMove sampleConfig ⟨[], some 7, ⟨0, 0⟩⟩ 7 0 10 (1 / 2) 0 0
        .touch).1.badgePos = (⟨[], some 7, ⟨0, 0⟩⟩ : HexState).badgePos ∨
      isPointInHexagon ((handlePointerMove sampleConfig ⟨[], some 7, ⟨0, 0⟩⟩ 7 0 10 (1 / 2) 0 0
          .touch).1.badgePos)
        (getHexagonVertices ⟨sampleConfig.cx, sampleConfig.cy⟩ sampleConfig.radius) = true) :=
  C7_amended sampleConfig ⟨[], some 7, ⟨0, 0⟩⟩ 7 0 10 (1 / 2) 0 0 .touch rfl

/-! ## Claims C8 and C9: the touch map and the emitted commands -/

theorem lookup_map_replace (l : List (ℕ × Point)) (k : ℕ) (v : Point)
    (h : (List.lookup k l).isSome) :
    List.lookup k (l.map fun kv => if kv.1 = k then (k, v) else kv) = some v := by
  induction l with
  | nil => simp at h
  | cons hd t ih =>
    obtain ⟨a, b⟩ := hd
    by_cases hk : a = k
    · subst hk
      simp only [List.map_cons]
      rw [if_pos trivial]
      exact List.lookup_cons_self
    · have hba : (k == a) = false := beq_eq_false_iff_ne.mpr (Ne.symm hk)
      have h' : (List.lookup k t).isSome := by
        rw [List.lookup_cons, hba] at h
        exact h
      simp only [List.map_cons]
      rw [if_neg hk, List.lookup_cons, hba]
      exact ih h'

theorem lookup_mapSet_self (l : List (ℕ × Point)) (k : ℕ) (v : Point)
    (h : (List.lookup k l).isSome) :
    List.lookup k (mapSet l k v) = some v := by
  unfold mapSet
  have hany : l.any (fun kv => kv.1 == k) = true := by
    rw [List.lookup_isSome_iff] at h
    obtain ⟨p, hp, hpk⟩ := h
    refine List.any_eq_true.mpr ⟨p, hp, ?_⟩
    show (p.1 == k) = true
    exact beq_iff_eq.mpr (beq_iff_eq.mp hpk).symm
  rw [if_pos hany]
  exact lookup_map_replace l k v h

theorem lookup_mapDelete_self (l : List (ℕ × Point)) (k : ℕ) :
    List.lookup k (mapDelete l k) = none := by
  rw [List.lookup_eq_none_iff]
  intro p hp
  unfold mapDelete at hp
  have h2 := List.of_mem_filter hp
  simp only [bne_iff_ne] at h2 ⊢
  exact Ne.symm h2

theorem lookup_mapDelete_ne (l : List (ℕ × Point)) (k k' : ℕ) (h : k' ≠ k) :
    List.lookup k' (mapDelete l k) = List.lookup k' l := by
  unfold mapDelete
  induction l with
  | nil => rfl
  | cons hd t ih =>
    obtain ⟨a, b⟩ := hd
    rw [List.filter_cons]
    by_cases hak : a = k
    · subst hak
      rw [show (((a, b).1 != a) : Bool) = false from by simp]
      rw [if_neg (by simp)]
      rw [ih]
      have h2 : (k' == a) = false := beq_eq_false_iff_ne.mpr h
      rw [List.lookup_cons]
      simp [h2]
    · rw [show (((a, b).1 != k) : Bool) = true from by simp [hak]]
      rw [if_pos rfl]
      rw [List.lookup_cons, List.lookup_cons]
      by_cases hk2 : (k' == a) = true
      · simp [hk2]
      · simp only [Bool.not_eq_true] at hk2
        simp [hk2, ih]

theorem clamp01_id {v : ℝ} (h1 : 0 < v) (h2 : v < 1) : clamp01 v = v := by
  unfold clamp01
  rw [min_eq_right h2.le, max_eq_right (by linarith)]

theorem normX_bounds (cx : ℝ) {r x : ℝ} (hr : 0 < r)
    (h1 : minX cx r < x) (h2 : x < maxX cx r) :
    0 < normX cx r x ∧ normX cx r x < 1 := by
  have hd : 0 < maxX cx r - minX cx r := by
    simp only [minX, maxX]; linarith
  unfold normX
  constructor
  · exact div_pos (by linarith) hd
  · rw [div_lt_one hd]; linarith

theorem normY_bounds (cy : ℝ) {r y : ℝ} (hr : 0 < r)
    (h1 : minY cy r < y) (h2 : y < maxY cy r) :
    0 < normY cy r y ∧ normY cy r y < 1 := by
  have hd : 0 < maxY cy r - minY cy r := by linarith [yRange_pos cy hr]
  unfold normY
  constructor
  · have : (y - minY cy r) / (maxY cy r - minY cy r) < 1 := by
      rw [div_lt_one hd]; linarith
    linarith
  · have : 0 < (y - minY cy r) / (maxY cy r - minY cy r) := div_pos (by linarith) hd
    linarith

theorem modFactors_pos (m : ModBinding) {nx ny pressure : ℝ} (pt : PType)
    (hnx1 : 0 < nx) (hnx2 : nx < 1) (hny1 : 0 < ny) (hny2 : ny < 1)
    (hp : 0 < pressure) :
    ∀ a ∈ modFactors m nx ny pressure pt, 0 < a := by
  intro a ha
  unfold modFactors at ha
  simp only [List.mem_append] at ha
  have hcx := clamp01_id hnx1 hnx2
  have hcy := clamp01_id hny1 hny2
  rcases ha with (ha | ha) | ha
  · rcases Bool.eq_false_or_eq_true m.x with hb | hb <;> simp [hb] at ha
    rcases Bool.eq_false_or_eq_true m.xInv with hb2 | hb2 <;> simp [hb2] at ha <;>
      rw [ha] <;> rw [hcx] <;> linarith
  · rcases Bool.eq_false_or_eq_true m.y with hb | hb <;> simp [hb] at ha
    rcases Bool.eq_false_or_eq_true m.yInv with hb2 | hb2 <;> simp [hb2] at ha <;>
      rw [ha] <;> rw [hcy] <;> linarith
  · by_cases hb : (m.p && decide (pt = PType.pen)) = true <;> simp [hb] at ha
    rw [ha]; exact hp

theorem modFactor_pos (m : ModBinding) {nx ny pressure : ℝ} (pt : PType)
    (hnx1 : 0 < nx) (hnx2 : nx < 1) (hny1 : 0 < ny) (hny2 : ny < 1)
    (hp : 0 < pressure) :
    0 < modFactor m nx ny pressure pt := by
  unfold modFactor
  by_cases hb : (m.x || m.y || m.p) = true
  · rw [if_pos hb]
    show 0 < if 0 < (modFactors m nx ny pressure pt).length then
        (modFactors m nx ny pressure pt).sum / ((modFactors m nx ny pressure pt).length : ℝ)
      else 1
    by_cases hlen : 0 < (modFactors m nx ny pressure pt).length
    · rw [if_pos hlen]
      apply div_pos
      · refine List.sum_pos _ (modFactors_pos m pt hnx1 hnx2 hny1 hny2 hp) ?_
        intro hnil
        rw [hnil] at hlen
        simp at hlen
      · exact_mod_cast hlen
    · rw [if_neg hlen]
      exact one_pos
  · rw [if_neg hb]
    exact one_pos

theorem effectModCmds_shape (cfg : InstrumentConfig) (nx ny pressure : ℝ) (pt : PType) :
    ∀ c ∈ effectModCmds cfg nx ny pressure pt,
      (∃ i s, c = EngineCmd.updateEffectParameter i s) ∨
      ∃ i k v, c = EngineCmd.setEffectParam i k v := by
  intro c hc
  unfold effectModCmds at hc
  rw [List.mem_flatMap] at hc
  obtain ⟨i, _, hc⟩ := hc
  by_cases hpres : cfg.effectPresent i = false
  · rw [if_pos hpres] at hc
    simp at hc
  · rw [if_neg hpres] at hc
    rw [List.mem_append] at hc
    rcases hc with hc | hc
    · left
      rcases hw : fingerWetWrite cfg.paramMods i nx ny pressure pt with _ | s <;>
        rw [hw] at hc
      · simp at hc
      · simp at hc
        exact ⟨i, s, hc⟩
    · right
      rw [List.mem_flatMap] at hc
      obtain ⟨p, _, hc⟩ := hc
      rcases hw : fingerParamWrite (cfg.paramMods i p.key) nx ny pressure pt with _ | s <;>
        rw [hw] at hc
      · simp at hc
      · simp at hc
        exact ⟨i, p.key, p.min + s * (p.max - p.min), hc⟩

theorem stopNote_not_mem_updateNoteCmds (cfg : InstrumentConfig) (id : ℕ)
    (x y pressure tiltX tiltY : ℝ) (pt : PType) (j : ℕ) :
    EngineCmd.stopNote j ∉ updateNoteCmds cfg id x y pressure tiltX tiltY pt := by
  intro hmem
  unfold updateNoteCmds at hmem
  rw [List.mem_append] at hmem
  rcases hmem with hmem | hmem
  · simp at hmem
  · rcases effectModCmds_shape cfg _ _ pressure pt _ hmem with ⟨_, _, h⟩ | ⟨_, _, _, h⟩ <;>
      exact EngineCmd.noConfusion h

/-- C8: a pointer-move for a registered note driver never releases its voice:
the identifier stays in the active-touch map (with the new position), the move
re-triggers `startNote` for it with strictly positive amplitude — including at
positions inside the bounding rectangle but outside the hexagon outline — and
no `stopNote` is emitted by a move; only `handlePointerUp` stops the voice. -/
theorem C8_move_keeps_voice (cfg : InstrumentConfig) (s : HexState) (id : ℕ)
    (x y pressure tiltX tiltY : ℝ) (pt : PType) (p0 : Point)
    (hnb : s.badgePointer ≠ some id)
    (hact : List.lookup id s.activeTouches = some p0)
    (hmv : 0 < cfg.masterVolume) (hr : 0 < cfg.radius)
    (hx1 : minX cfg.cx cfg.radius < x) (hx2 : x < maxX cfg.cx cfg.radius)
    (hy1 : minY cfg.cy cfg.radius < y) (hy2 : y < maxY cfg.cy cfg.radius)
    (hp : 0 < pressure) :
    List.lookup id (handlePointerMove cfg s id x y pressure tiltX tiltY pt).1.activeTouches
      = some ⟨x, y⟩ ∧
    EngineCmd.startNote id (noteFreqs cfg y) (noteVol cfg x y pressure pt)
      (noteUseArp cfg y) ∈ (handlePointerMove cfg s id x y pressure tiltX tiltY pt).2 ∧
    0 < noteVol cfg x y pressure pt ∧
    ∀ j, EngineCmd.stopNote j ∉ (handlePointerMove cfg s id x y pressure tiltX tiltY pt).2 := by
  have hsome : (List.lookup id s.activeTouches).isSome := by rw [hact]; rfl
  have hmove : handlePointerMove cfg s id x y pressure tiltX tiltY pt =
      ({ s with activeTouches := mapSet s.activeTouches id ⟨x, y⟩ },
        updateNoteCmds cfg id x y pressure tiltX tiltY pt) := by
    unfold handlePointerMove
    rw [if_neg hnb, if_pos hsome]
  obtain ⟨hnx1, hnx2⟩ := normX_bounds cfg.cx hr hx1 hx2
  obtain ⟨hny1, hny2⟩ := normY_bounds cfg.cy hr hy1 hy2
  refine ⟨?_, ?_, ?_, ?_⟩
  · rw [hmove]
    exact lookup_mapSet_self s.activeTouches id ⟨x, y⟩ hsome
  · rw [hmove]
    simp [updateNoteCmds]
  · unfold noteVol
    exact mul_pos hmv (modFactor_pos cfg.volMod pt hnx1 hnx2 hny1 hny2 hp)
  · intro j
    rw [hmove]
    exact stopNote_not_mem_updateNoteCmds cfg id x y pressure tiltX tiltY pt j

/-- Witness for C8: a single active touch at the center, moving to
`(1/10, 1/5)`. -/
theorem C8_move_keeps_voice_witness :
    List.lookup 1 (handlePointerMove sampleConfig ⟨[(1, ⟨0, 0⟩)], none, ⟨0, 0⟩⟩ 1
        (1 / 10) (1 / 5) (1 / 2) 0 0 .touch).1.activeTouches = some ⟨1 / 10, 1 / 5⟩ ∧
    EngineCmd.startNote 1 (noteFreqs sampleConfig (1 / 5))
      (noteVol sampleConfig (1 / 10) (1 / 5) (1 / 2) .touch)
      (noteUseArp sampleConfig (1 / 5)) ∈
      (handlePointerMove sampleConfig ⟨[(1, ⟨0, 0⟩)], none, ⟨0, 0⟩⟩ 1
        (1 / 10) (1 / 5) (1 / 2) 0 0 .touch).2 ∧
    0 < noteVol sampleConfig (1 / 10) (1 / 5) (1 / 2) .touch ∧
    ∀ j, EngineCmd.stopNote j ∉
      (handlePointerMove sampleConfig ⟨[(1, ⟨0, 0⟩)], none, ⟨0, 0⟩⟩ 1
        (1 / 10) (1 / 5) (1 / 2) 0 0 .touch).2 := by
  have hy1 : minY sampleConfig.cy sampleConfig.radius < 1 / 5 := by
    show minY 0 2 < 1 / 5
    have := sqrt3_pos
    unfold minY SQRT3 at *
    nlinarith
  have hy2 : (1 / 5 : ℝ) < maxY sampleConfig.cy sampleConfig.radius := by
    show (1 / 5 : ℝ) < maxY 0 2
    have h32 : (3 : ℝ) / 2 < SQRT3 := by
      rw [SQRT3, show (3 : ℝ) / 2 = Real.sqrt ((3 / 2) ^ 2) by
        rw [Real.sqrt_sq (by norm_num : (0 : ℝ) ≤ 3 / 2)]]
      exact Real.sqrt_lt_sqrt (by positivity) (by norm_num)
    unfold maxY SQRT3 at *
    nlinarith
  exact C8_move_keeps_voice sampleConfig ⟨[(1, ⟨0, 0⟩)], none, ⟨0, 0⟩⟩ 1
    (1 / 10) (1 / 5) (1 / 2) 0 0 .touch ⟨0, 0⟩ (by simp) (by simp)
    (by norm_num [sampleConfig]) (by norm_num [sampleConfig])
    (by show minX 0 2 < 1 / 10; unfold minX; norm_num)
    (by show (1 / 10 : ℝ) < maxX 0 2; unfold maxX; norm_num)
    hy1 hy2 (by norm_num)

/-- C9: releasing one of several simultaneously active note drivers stops
exactly that identifier's voice and removes exactly its entry: every other
identifier keeps its entry and position, and no `stopNote` for any other
identifier is emitted. -/
theorem C9_release_isolated (s : HexState) (id id' : ℕ) (p p' : Point)
    (hnb : s.badgePointer ≠ some id)
    (hact : List.lookup id s.activeTouches = some p)
    (hother : List.lookup id' s.activeTouches = some p') (hne : id' ≠ id) :
    List.lookup id' (handlePointerUp s id).1.activeTouches = some p' ∧
    List.lookup id (handlePointerUp s id).1.activeTouches = none ∧
    EngineCmd.stopNote id ∈ (handlePointerUp s id).2 ∧
    ∀ j, j ≠ id → EngineCmd.stopNote j ∉ (handlePointerUp s id).2 := by
  have hsome : (List.lookup id s.activeTouches).isSome := by rw [hact]; rfl
  have hup : handlePointerUp s id =
      ({ s with activeTouches := mapDelete s.activeTouches id },
        [EngineCmd.stopNote id] ++
          if (mapDelete s.activeTouches id).length = 0 then
            [EngineCmd.modulationUpdate 1 1] else []) := by
    unfold handlePointerUp
    rw [if_neg hnb, if_pos hsome]
  refine ⟨?_, ?_, ?_, ?_⟩
  · rw [hup]
    show List.lookup id' (mapDelete s.activeTouches id) = some p'
    rw [lookup_mapDelete_ne s.activeTouches id id' hne, hother]
  · rw [hup]
    exact lookup_mapDelete_self s.activeTouches id
  · rw [hup]
    simp
  · intro j hj
    rw [hup]
    intro hmem
    rw [List.mem_append] at hmem
    rcases hmem with hmem | hmem
    · simp at hmem
      exact hj hmem
    · split at hmem <;> simp at hmem

/-- Witness for C9: two active touches; releasing touch 1 leaves touch 2 in
place. -/
theorem C9_release_isolated_witness :
    List.lookup 2 (handlePointerUp ⟨[(1, ⟨3, 4⟩), (2, ⟨5, 6⟩)], none, ⟨0, 0⟩⟩ 1).1.activeTouches
      = some ⟨5, 6⟩ ∧
    List.lookup 1 (handlePointerUp ⟨[(1, ⟨3, 4⟩), (2, ⟨5, 6⟩)], none, ⟨0, 0⟩⟩ 1).1.activeTouches
      = none ∧
    EngineCmd.stopNote 1 ∈ (handlePointerUp ⟨[(1, ⟨3, 4⟩), (2, ⟨5, 6⟩)], none, ⟨0, 0⟩⟩ 1).2 ∧
    ∀ j, j ≠ 1 → EngineCmd.stopNote j ∉
      (handlePointerUp ⟨[(1, ⟨3, 4⟩), (2, ⟨5, 6⟩)], none, ⟨0, 0⟩⟩ 1).2 :=
  C9_release_isolated ⟨[(1, ⟨3, 4⟩), (2, ⟨5, 6⟩)], none, ⟨0, 0⟩⟩ 1 2 ⟨3, 4⟩ ⟨5, 6⟩
    (by simp) (by simp [List.lookup_cons]) (by simp [List.lookup_cons]) (by norm_num)

/-! ## Claim C10 -/

theorem mem_enum_getElem {l : List ℝ} {j : ℕ} {d : ℝ} (h : (j, d) ∈ l.enum) :
    l[j]? = some d := by
  rw [List.mem_iff_getElem?] at h
  obtain ⟨m, hm⟩ := h
  rw [show l.enum = l.enumFrom 0 from rfl, List.getElem?_enumFrom] at hm
  rcases he : l[m]? with _ | a <;> rw [he] at hm
  · simp at hm
  · simp at hm
    obtain ⟨hj, hd⟩ := hm
    subst hj
    rw [he, hd]

theorem getD_mem_enum {l : List ℝ} {i : ℕ} (h : i < l.length) :
    (i, l.getD i 0) ∈ l.enum := by
  rw [List.mem_iff_getElem?]
  refine ⟨i, ?_⟩
  rw [show l.enum = l.enumFrom 0 from rfl, List.getElem?_enumFrom,
    List.getElem?_eq_getElem h]
  simp [List.getD_eq_getElem?_getD, List.getElem?_eq_getElem h]

theorem getDistancesToSides_length (p : Point) (vertices : List Point) :
    (getDistancesToSides p vertices).length = 6 := by
  simp [getDistancesToSides]

/-- Membership characterization of the badge's wet writes: slot `i` receives a
badge write with value `v` exactly when its wet binding has no enabled source
and `v` is `max 0 (1 - d_i / radius)` for the distance `d_i` to side `i`. -/
theorem badge_write_iff (cfg : InstrumentConfig) (vertices : List Point) (pos : Point)
    (i : ℕ) (v : ℝ) :
    EngineCmd.updateEffectParameter i v ∈ updateEffectsFromBadge cfg vertices pos ↔
      ((!(cfg.paramMods i "wet").x && !(cfg.paramMods i "wet").y &&
          !(cfg.paramMods i "wet").p) = true ∧
        v = max 0 (1 - (getDistancesToSides pos vertices).getD i 0 / cfg.radius) ∧
        i < (getDistancesToSides pos vertices).length) := by
  unfold updateEffectsFromBadge
  rw [List.mem_flatMap]
  constructor
  · rintro ⟨⟨j, d⟩, hmem, hin⟩
    dsimp only at hin
    split at hin
    · rename_i hc
      simp only [List.mem_singleton, EngineCmd.updateEffectParameter.injEq] at hin
      obtain ⟨hij, hv⟩ := hin
      subst hij
      have hd := mem_enum_getElem hmem
      have hlen : i < (getDistancesToSides pos vertices).length := by
        have := List.getElem?_eq_some_iff.mp hd
        exact this.1
      refine ⟨hc, ?_, hlen⟩
      rw [hv]
      rw [List.getD_eq_getElem?_getD, hd]
      rfl
    · simp at hin
  · rintro ⟨hc, hv, hlen⟩
    refine ⟨(i, (getDistancesToSides pos vertices).getD i 0), getD_mem_enum hlen, ?_⟩
    dsimp only
    rw [if_pos hc]
    simp [hv]

theorem bool_not_and_iff : ∀ a b c : Bool, ((!a && !b && !c) = true) ↔ ((a || b || c) = false) := by
  decide

theorem fingerWetWrite_isSome (pm : ℕ → String → ModBinding) (i : ℕ)
    (nx ny pressure : ℝ) (pt : PType) :
    (fingerWetWrite pm i nx ny pressure pt).isSome = true ↔
      ((pm i "wet").x || (pm i "wet").y || (pm i "wet").p) = true := by
  unfold fingerWetWrite fingerParamWrite
  by_cases hb : ((pm i "wet").x || (pm i "wet").y || (pm i "wet").p) = true
  · rw [if_pos hb]
    simp [hb]
  · rw [if_neg hb]
    simp only [Option.isSome_none, Bool.false_eq_true, false_iff]
    exact hb

/-- C10: on a badge position update, an effect slot whose wet (mix) binding
has any finger-position or pressure modulation source enabled receives no
badge write (the note pipeline writes it instead), while a slot with no such
binding receives exactly the badge strength `max 0 (1 - d_i / radius)` and is
never written by the note pipeline's wet modulation; no slot's mix can be
written by both. -/
theorem C10_badge_write_precedence (cfg : InstrumentConfig) (vertices : List Point)
    (pos : Point) (i : ℕ) (hi : i < 6) (nx ny pressure : ℝ) (pt : PType) :
    (((cfg.paramMods i "wet").x || (cfg.paramMods i "wet").y ||
        (cfg.paramMods i "wet").p) = true →
      (∀ v, EngineCmd.updateEffectParameter i v ∉ updateEffectsFromBadge cfg vertices pos) ∧
      (fingerWetWrite cfg.paramMods i nx ny pressure pt).isSome = true) ∧
    (((cfg.paramMods i "wet").x || (cfg.paramMods i "wet").y ||
        (cfg.paramMods i "wet").p) = false →
      EngineCmd.updateEffectParameter i
          (max 0 (1 - (getDistancesToSides pos vertices).getD i 0 / cfg.radius)) ∈
        updateEffectsFromBadge cfg vertices pos ∧
      fingerWetWrite cfg.paramMods i nx ny pressure pt = none) ∧
    ¬((∃ v, EngineCmd.updateEffectParameter i v ∈ updateEffectsFromBadge cfg vertices pos) ∧
      (fingerWetWrite cfg.paramMods i nx ny pressure pt).isSome = true) := by
  refine ⟨?_, ?_, ?_⟩
  · intro hb
    constructor
    · intro v hv
      have h := (badge_write_iff cfg vertices pos i v).mp hv
      rw [bool_not_and_iff] at h
      rw [h.1] at hb
      exact Bool.false_ne_true hb
    · exact (fingerWetWrite_isSome cfg.paramMods i nx ny pressure pt).mpr hb
  · intro hb
    constructor
    · refine (badge_write_iff cfg vertices pos i _).mpr ⟨?_, rfl, ?_⟩
      · rw [bool_not_and_iff]
        exact hb
      · rw [getDistancesToSides_length]
        exact hi
    · unfold fingerWetWrite fingerParamWrite
      rw [if_neg (by rw [hb]; exact Bool.false_ne_true)]
  · rintro ⟨⟨v, hv⟩, hsome⟩
    have h := (badge_write_iff cfg vertices pos i v).mp hv
    rw [bool_not_and_iff] at h
    rw [fingerWetWrite_isSome] at hsome
    rw [h.1] at hsome
    exact Bool.false_ne_true hsome

/-- Witness for C10 at slot 0 of the sample configuration. -/
theorem C10_badge_write_precedence_witness :
    (((sampleConfig.paramMods 0 "wet").x || (sampleConfig.paramMods 0 "wet").y ||
        (sampleConfig.paramMods 0 "wet").p) = true →
      (∀ v, EngineCmd.updateEffectParameter 0 v ∉
        updateEffectsFromBadge sampleConfig [] ⟨0, 0⟩) ∧
      (fingerWetWrite sampleConfig.paramMods 0 (1 / 2) (1 / 2) (1 / 2) .touch).isSome
        = true) ∧
    (((sampleConfig.paramMods 0 "wet").x || (sampleConfig.paramMods 0 "wet").y ||
        (sampleConfig.paramMods 0 "wet").p) = false →
      EngineCmd.updateEffectParameter 0
          (max 0 (1 - (getDistancesToSides ⟨0, 0⟩ []).getD 0 0 / sampleConfig.radius)) ∈
        updateEffectsFromBadge sampleConfig [] ⟨0, 0⟩ ∧
      fingerWetWrite sampleConfig.paramMods 0 (1 / 2) (1 / 2) (1 / 2) .touch = none) ∧
    ¬((∃ v, EngineCmd.updateEffectParameter 0 v ∈
        updateEffectsFromBadge sampleConfig [] ⟨0, 0⟩) ∧
      (fingerWetWrite sampleConfig.paramMods 0 (1 / 2) (1 / 2) (1 / 2) .touch).isSome
        = true) :=
  C10_badge_write_precedence sampleConfig [] ⟨0, 0⟩ 0 (by norm_num) (1 / 2) (1 / 2)
    (1 / 2) .touch
